import Mathlib

/-!
Shallow embedding of the WebRTC signaling relay server (`signaling.py`):
per-room membership and host state, the delivery primitives `broadcast`
and `send_to_user`, the per-message router of `handler`, the admission
sequence, and the disconnect/teardown sequence, together with proofs of
the specified room/host invariants and per-message routing behaviour.
-/

namespace Signaling

/-- JSON values as produced by `json.loads` / consumed by `json.dumps`. -/
inductive J : Type where
  | null : J
  | bool (b : Bool) : J
  | str (s : String) : J
  | num (n : Int) : J
  | arr (xs : List J) : J
  | obj (kvs : List (String × J)) : J

/-- Python equality between a `str` and an arbitrary JSON value: true exactly
when the value is the same string (a string never equals a non-string). -/
def strEqJ (s : String) : J → Bool
  | .str t => t = s
  | _ => false

/-- Lookup of a key in an association list of JSON object fields
(Python `dict` access order: first matching key). -/
def getKV : List (String × J) → String → Option J
  | [], _ => none
  | (k0, v0) :: rest, k => if k0 = k then some v0 else getKV rest k

/-- Python `msg.get(k)`: `some v` when the object has key `k`, else `none`
(also `none` when the value is not a JSON object). -/
def J.get : J → String → Option J
  | .obj kvs, k => getKV kvs k
  | _, _ => none

/-- Python `k in msg` on a JSON object. -/
def J.hasKey (j : J) (k : String) : Bool := (j.get k).isSome

/-- Python `msg.get("type") == s`: the message's `type` field equals the
string `s` (a missing field compares unequal). -/
def tyIs (msg : J) (s : String) : Bool :=
  match msg.get "type" with
  | some v => strEqJ s v
  | none => false

/-- Python dict assignment `msg[k] = v`: replace the value in place when the
key is present, otherwise append the new entry at the end. -/
def setKV : List (String × J) → String → J → List (String × J)
  | [], k, v => [(k, v)]
  | (k0, v0) :: rest, k, v =>
      if k0 = k then (k0, v) :: rest else (k0, v0) :: setKV rest k v

/-- Field update on a JSON object (identity on non-objects, which the
router never reaches because non-objects raise before any assignment). -/
def J.set : J → String → J → J
  | .obj kvs, k, v => .obj (setKV kvs k v)
  | j, _, _ => j

/-- Python truthiness of a JSON value. -/
def J.truthy : J → Bool
  | .null => false
  | .bool b => b
  | .str s => s ≠ ""
  | .num n => n ≠ 0
  | .arr xs => !xs.isEmpty
  | .obj kvs => !kvs.isEmpty

/-- Whether the value is a JSON object (a Python `dict`): attribute access
`msg.get` raises on anything else. -/
def J.isObj : J → Bool
  | .obj _ => true
  | _ => false

/-- Connection identity (a websocket object; compared by identity). -/
abbrev Ws := Nat

/-- One room: `{"clients": {ws: username, ...}, "host": username-or-None}`.
The clients dict is modelled as an insertion-ordered association list with
unique keys. -/
structure Room where
  clients : List (Ws × String)
  host : Option String
  deriving DecidableEq

/-- The room freshly created on first join: `{"clients": {}, "host": None}`. -/
def freshRoom : Room := ⟨[], none⟩

/-- The process-wide `rooms` dict: room id to room state. -/
abbrev Registry := List (String × Room)

/-- Transport environment for one event: which sockets report `.open` and
which raise an exception when sent to. -/
structure Env where
  isOpen : Ws → Bool
  fails : Ws → Bool

/-- Python `usernames_in_room`: the values of the clients dict, in order. -/
def usernames_in_room (room : Room) : List String := room.clients.map (fun p => p.2)

/-- Python `ws_for_username`: the first connection whose display name equals
`username` (the comparand may be any JSON value, as the router passes raw
message fields into it). -/
def ws_for_username (room : Room) (username : J) : Option Ws :=
  room.clients.findSome? (fun p => if strEqJ p.2 username then some p.1 else none)

/-- Loop body of `broadcast`: walk the membership snapshot, skip the excluded
socket, attempt a send to each open socket; a raising socket is collected in
the `dead` list, a successful send is recorded as a delivery. Returns
(dead sockets, deliveries in send order). -/
def broadcastGo (env : Env) (payload : J) (exceptWs : Option Ws) :
    List (Ws × String) → List Ws × List (Ws × J)
  | [] => ([], [])
  | (w, _) :: rest =>
      if exceptWs = some w then broadcastGo env payload exceptWs rest
      else if env.isOpen w then
        if env.fails w then
          let r := broadcastGo env payload exceptWs rest
          (w :: r.1, r.2)
        else
          let r := broadcastGo env payload exceptWs rest
          (r.1, (w, payload) :: r.2)
      else broadcastGo env payload exceptWs rest

/-- Python `broadcast(room, payload, except_ws)`: send to every client in the
room except `exceptWs`, then pop every socket that raised from the clients
dict. Returns the mutated room and the successful deliveries. -/
def broadcast (env : Env) (room : Room) (payload : J) (exceptWs : Option Ws) :
    Room × List (Ws × J) :=
  let r := broadcastGo env payload exceptWs room.clients
  ({ room with clients := room.clients.filter (fun p => !r.1.contains p.1) }, r.2)

/-- Python `send_to_user(room, username, payload)`: resolve the first
connection mapped to `username`, attempt one send if it exists and is open,
report success; the room is returned untouched (this primitive never prunes
membership). -/
def send_to_user (env : Env) (room : Room) (username : J) (payload : J) :
    Room × Bool × List (Ws × J) :=
  match ws_for_username room username with
  | some w =>
      if env.isOpen w then
        if env.fails w then (room, false, []) else (room, true, [(w, payload)])
      else (room, false, [])
  | none => (room, false, [])

/-- JSON encoding of a display name or Python `None`. -/
def optStr : Option String → J
  | none => .null
  | some s => .str s

/-- Payload `{"type": "host_changed", "host": h}`. -/
def hostChangedMsg (h : Option String) : J :=
  .obj [("type", .str "host_changed"), ("host", optStr h)]

/-- Payload `{"type": "peer_list", "users": users, "host": h}`. -/
def peerListMsg (users : List String) (h : Option String) : J :=
  .obj [("type", .str "peer_list"), ("users", .arr (users.map .str)), ("host", optStr h)]

/-- Payload `{"type": "peer_joined", "user": u}`. -/
def peerJoinedMsg (u : String) : J :=
  .obj [("type", .str "peer_joined"), ("user", .str u)]

/-- Payload `{"type": "peer_left", "user": u}` (the user may be `None` when
the departing socket was already pruned from the clients dict). -/
def peerLeftMsg (u : Option String) : J :=
  .obj [("type", .str "peer_left"), ("user", optStr u)]

/-- Payload `{"type": "host_mute"}`. -/
def hostMuteMsg : J := .obj [("type", .str "host_mute")]

/-- Payload `{"type": "host_kick", "to": target}` sent as a warning before a
kicked connection is closed (`target` is the raw message field). -/
def hostKickToMsg (target : J) : J :=
  .obj [("type", .str "host_kick"), ("to", target)]

/-- Directed intro payload sent to each side of `introduce_pair`. -/
def introSignalMsg (target other : J) : J :=
  .obj [("type", .str "signal"), ("to", target), ("from", .str "host"),
        ("data", .obj [("type", .str "intro"), ("other", other)])]

/-- Room-wide chat payload `{"type": "chat", "from": sender, "text": txt}`. -/
def chatBaseMsg (sender txt : String) : J :=
  .obj [("type", .str "chat"), ("from", .str sender), ("text", .str txt)]

/-- Private chat payload delivered to the target (`{**payload, "private": True}`). -/
def chatPrivMsg (sender txt : String) : J :=
  .obj [("type", .str "chat"), ("from", .str sender), ("text", .str txt),
        ("private", .bool true)]

/-- Private chat echo delivered back to the sender
(`{**payload, "private": True, "to": target}`). -/
def chatEchoMsg (sender txt : String) (target : J) : J :=
  .obj [("type", .str "chat"), ("from", .str sender), ("text", .str txt),
        ("private", .bool true), ("to", target)]

/-- Result of routing one received message: the mutated room, the successful
deliveries in send order, and the sockets the server closed. -/
structure StepOut where
  room : Room
  sends : List (Ws × J)
  closes : List Ws

/-- The `iam_host` branch: designate the sender as host only when the room
has none, and announce it. -/
def iamHostStep (env : Env) (room : Room) (sender : String) : StepOut :=
  if room.host = none then
    ⟨(broadcast env { room with host := some sender } (hostChangedMsg (some sender)) none).1,
     (broadcast env { room with host := some sender } (hostChangedMsg (some sender)) none).2, []⟩
  else ⟨room, [], []⟩

/-- The `host_mute_all` branch: when the sender is the host, send `host_mute`
to every open member whose name differs from the host's, swallowing send
errors without pruning; otherwise do nothing. -/
def muteStep (env : Env) (room : Room) (sender : String) : StepOut :=
  if room.host = some sender then
    ⟨room,
     room.clients.filterMap (fun p =>
       if env.isOpen p.1 && p.2 != sender && !env.fails p.1
       then some (p.1, hostMuteMsg) else none),
     []⟩
  else ⟨room, [], []⟩

/-- The `host_kick` branch: from the host with a truthy target naming an open
member, send the warning (errors swallowed) and close that socket; in every
other case do nothing. -/
def kickStep (env : Env) (room : Room) (sender : String) (msg : J) : StepOut :=
  if room.host = some sender then
    if ((msg.get "target").getD .null).truthy = false then ⟨room, [], []⟩
    else
      match ws_for_username room ((msg.get "target").getD .null) with
      | some w =>
          if env.isOpen w then
            ⟨room,
             if env.fails w then [] else [(w, hostKickToMsg ((msg.get "target").getD .null))],
             [w]⟩
          else ⟨room, [], []⟩
      | none => ⟨room, [], []⟩
  else ⟨room, [], []⟩

/-- The `transfer_host` branch: from the host, with `to` naming a current
member, reassign the host and announce it; otherwise do nothing. -/
def transferStep (env : Env) (room : Room) (sender : String) (msg : J) : StepOut :=
  match (msg.get "to").getD .null with
  | .str s =>
      if room.host = some sender ∧ s ∈ usernames_in_room room then
        ⟨(broadcast env { room with host := some s } (hostChangedMsg (some s)) none).1,
         (broadcast env { room with host := some s } (hostChangedMsg (some s)) none).2, []⟩
      else ⟨room, [], []⟩
  | _ => ⟨room, [], []⟩

/-- The `introduce_pair` branch: from the host with truthy `a` and `b`, send
each side a directed intro naming the other; missing targets drop per side. -/
def introStep (env : Env) (room : Room) (sender : String) (msg : J) : StepOut :=
  if room.host ≠ some sender ∨ ((msg.get "a").getD .null).truthy = false
      ∨ ((msg.get "b").getD .null).truthy = false then ⟨room, [], []⟩
  else
    ⟨room,
     (send_to_user env room ((msg.get "a").getD .null)
        (introSignalMsg ((msg.get "a").getD .null) ((msg.get "b").getD .null))).2.2
     ++ (send_to_user env room ((msg.get "b").getD .null)
        (introSignalMsg ((msg.get "b").getD .null) ((msg.get "a").getD .null))).2.2,
     []⟩

/-- The directed `signal` branch: overwrite `from` with the sender's name and
deliver the whole envelope to the `to` member only. -/
def signalStep (env : Env) (room : Room) (sender : String) (msg : J) : StepOut :=
  ⟨room,
   (send_to_user env room ((msg.get "to").getD .null) (msg.set "from" (.str sender))).2.2, []⟩

/-- Python `str.isspace` on one character: code points CPython treats as
whitespace (bidirectional class WS/B/S or category Zs). -/
def pyIsSpace (c : Char) : Bool :=
  (0x9 ≤ c.toNat && c.toNat ≤ 0xD) || (0x1C ≤ c.toNat && c.toNat ≤ 0x1F) ||
  c.toNat == 0x20 || c.toNat == 0x85 || c.toNat == 0xA0 || c.toNat == 0x1680 ||
  (0x2000 ≤ c.toNat && c.toNat ≤ 0x200A) ||
  c.toNat == 0x2028 || c.toNat == 0x2029 || c.toNat == 0x202F ||
  c.toNat == 0x205F || c.toNat == 0x3000

/-- Python `s.strip()`: drop leading and trailing whitespace characters. -/
def pyStrip (s : String) : String :=
  ⟨((s.data.dropWhile pyIsSpace).reverse.dropWhile pyIsSpace).reverse⟩

/-- Python `(msg.get("text") or "").strip()` up to the point where it can
raise: `none` models the `AttributeError` on a truthy non-string `text`. -/
def chatText (msg : J) : Option String :=
  match msg.get "text" with
  | none => some ""
  | some v => if v.truthy then (match v with | .str s => some s | _ => none) else some ""

/-- The `chat` branch: drop empty trimmed text; with a truthy non-wildcard
`to`, send the private payload to the target and the echo to the sender;
otherwise broadcast room-wide (sender included). -/
def chatStep (env : Env) (room : Room) (sender : String) (msg : J) : Option StepOut :=
  match chatText msg with
  | none => none
  | some t =>
      if pyStrip t = "" then some ⟨room, [], []⟩
      else
        match msg.get "to" with
        | some tv =>
            if tv.truthy && !strEqJ "*" tv then
              some ⟨room,
                (send_to_user env room tv (chatPrivMsg sender (pyStrip t))).2.2
                ++ (send_to_user env room (.str sender)
                      (chatEchoMsg sender (pyStrip t) tv)).2.2,
                []⟩
            else
              some ⟨(broadcast env room (chatBaseMsg sender (pyStrip t)) none).1,
                    (broadcast env room (chatBaseMsg sender (pyStrip t)) none).2, []⟩
        | none =>
            some ⟨(broadcast env room (chatBaseMsg sender (pyStrip t)) none).1,
                  (broadcast env room (chatBaseMsg sender (pyStrip t)) none).2, []⟩

/-- The fallback: blind-relay the parsed message to every other member. -/
def fallbackStep (env : Env) (room : Room) (ws : Ws) (msg : J) : StepOut :=
  ⟨(broadcast env room msg (some ws)).1, (broadcast env room msg (some ws)).2, []⟩

/-- Python `sender_name = room["clients"].get(ws, "anon")`. -/
def senderName (room : Room) (ws : Ws) : String :=
  (room.clients.lookup ws).getD "anon"

/-- One iteration of the receive loop on a parsed JSON message: the ordered
branch chain of `handler`. `none` models an uncaught exception (attribute
access on a non-object message, or a non-string truthy chat text). -/
def runMsg (env : Env) (room : Room) (ws : Ws) (msg : J) : Option StepOut :=
  if !msg.isObj then none
  else if tyIs msg "iam_host" then some (iamHostStep env room (senderName room ws))
  else if tyIs msg "host_mute_all" then some (muteStep env room (senderName room ws))
  else if tyIs msg "host_kick" then some (kickStep env room (senderName room ws) msg)
  else if tyIs msg "transfer_host" then some (transferStep env room (senderName room ws) msg)
  else if tyIs msg "introduce_pair" then some (introStep env room (senderName room ws) msg)
  else if tyIs msg "signal" && msg.hasKey "to" then
    some (signalStep env room (senderName room ws) msg)
  else if tyIs msg "chat" then chatStep env room (senderName room ws) msg
  else some (fallbackStep env room ws msg)

/-- Python dict assignment `room["clients"][ws] = user`: replace the value in
place when the socket is already a key, otherwise append. -/
def dictInsert (clients : List (Ws × String)) (w : Ws) (u : String) : List (Ws × String) :=
  if clients.any (fun p => p.1 == w) then
    clients.map (fun p => if p.1 == w then (w, u) else p)
  else clients ++ [(w, u)]

/-- Python dict write `rooms[id] = room` (update in place or append). -/
def updateReg (reg : Registry) (id : String) (room : Room) : Registry :=
  if reg.any (fun p => p.1 == id) then
    reg.map (fun p => if p.1 == id then (id, room) else p)
  else reg ++ [(id, room)]

/-- Python `rooms.pop(id, None)`. -/
def eraseReg (reg : Registry) (id : String) : Registry :=
  reg.filter (fun p => p.1 != id)

/-- The admission sequence of `handler` (lines 86–106): create the room if
missing, register the client, elect a host if there is none (announcing it to
the whole room, joiner included), send the joiner the `peer_list` snapshot,
then announce `peer_joined` to everyone else. The raw `ws.send` of the
snapshot is unguarded: the whole sequence aborts with an exception (`none`)
when the joiner's own socket is closed or raises. -/
def joinRoom (env : Env) (reg : Registry) (roomId : String) (ws : Ws) (user : String) :
    Option (Registry × List (Ws × J)) :=
  let room0 := (reg.lookup roomId).getD freshRoom
  let room1 : Room := { room0 with clients := dictInsert room0.clients ws user }
  let hb :=
    if room1.host = none then
      broadcast env { room1 with host := some user } (hostChangedMsg (some user)) none
    else (room1, [])
  let room2 := hb.1
  let users := usernames_in_room room2
  if env.isOpen ws && !env.fails ws then
    let pj := broadcast env room2 (peerJoinedMsg user) (some ws)
    some (updateReg reg roomId pj.1,
          hb.2 ++ [(ws, peerListMsg users room2.host)] ++ pj.2)
  else none

/-- Python `<` on lists of character code points (lexicographic order). -/
def charsLt : List Char → List Char → Bool
  | [], [] => false
  | [], _ :: _ => true
  | _ :: _, [] => false
  | a :: as, b :: bs =>
      if a.toNat < b.toNat then true
      else if b.toNat < a.toNat then false
      else charsLt as bs

/-- Python `<` on strings: lexicographic comparison of code points. -/
def pyStrLt (a b : String) : Bool := charsLt a.data b.data

/-- Python `min(remaining)`: fold of `<` keeping the first minimal element;
`none` on the empty list (the code guards that case). -/
def pyMin (xs : List String) : Option String :=
  match xs with
  | [] => none
  | x :: rest => some (rest.foldl (fun best v => if pyStrLt v best then v else best) x)

/-- The disconnect cleanup of `handler` (lines 219–235), on the room the
handler holds a reference to: pop the socket, broadcast `peer_left`, and when
the departed name was the (truthy) host, promote the lexicographically
smallest remaining name (or `None`) and broadcast `host_changed`. Returns the
final room; the caller deletes it from the registry when it emptied. -/
def teardownRoom (env : Env) (room : Room) (ws : Ws) : Room × List (Ws × J) :=
  let userLeft := room.clients.lookup ws
  let room1 : Room := { room with clients := room.clients.filter (fun p => p.1 != ws) }
  let b1 := broadcast env room1 (peerLeftMsg userLeft) none
  let room2 := b1.1
  let fixB : Bool :=
    match userLeft with
    | some u => u != "" && (room2.host == some u)
    | none => false
  if fixB then
    let newHost := pyMin (usernames_in_room room2)
    let b2 := broadcast env { room2 with host := newHost } (hostChangedMsg newHost) none
    (b2.1, b1.2 ++ b2.2)
  else (room2, b1.2)

/-- One server event, identifying the room and socket it concerns. -/
inductive Event : Type where
  | joinE (roomId : String) (ws : Ws) (user : String) : Event
  | msgE (roomId : String) (ws : Ws) (msg : J) : Event
  | teardownE (roomId : String) (ws : Ws) : Event

/-- Registry-level effect of one event. For `msgE` and `teardownE` the room
must still be registered (a handler whose room was already emptied and
deleted acts on a stale reference outside the registry; that corner is left
unmodelled as `none`). Teardown deletes the room when it emptied. -/
def stepEvent (env : Env) (reg : Registry) : Event → Option (Registry × List (Ws × J) × List Ws)
  | .joinE roomId ws user =>
      (joinRoom env reg roomId ws user).map (fun p => (p.1, p.2, []))
  | .msgE roomId ws msg =>
      match reg.lookup roomId with
      | some room =>
          (runMsg env room ws msg).map
            (fun o => (updateReg reg roomId o.room, o.sends, o.closes))
      | none => none
  | .teardownE roomId ws =>
      match reg.lookup roomId with
      | some room =>
          let t := teardownRoom env room ws
          some ((if t.1.clients.isEmpty then eraseReg reg roomId
                 else updateReg reg roomId t.1), t.2, [])
      | none => none

/-- The host invariant of one room: `host` is `None` or a current member's
display name. -/
def hostOkB (room : Room) : Bool :=
  match room.host with
  | none => true
  | some u => room.clients.any (fun p => p.2 == u)

/-- The host invariant over the whole registry. -/
def regHostOk (reg : Registry) : Bool := reg.all (fun p => hostOkB p.2)

/-- No registered room has an empty clients dict. -/
def regNonempty (reg : Registry) : Bool := reg.all (fun p => !p.2.clients.isEmpty)

/-- Well-formedness of a room as a Python dict produces it: socket keys are
unique and display names are nonempty (the query-string defaulting of
`handler` can never produce an empty name). -/
def roomWfB (room : Room) : Bool :=
  (room.clients.map (fun p => p.1)).Nodup && room.clients.all (fun p => p.2 != "")

/-- Well-formedness over the whole registry. -/
def regWf (reg : Registry) : Bool := reg.all (fun p => roomWfB p.2)

/-- No send raises in this environment. -/
def noFail (env : Env) : Prop := ∀ w, env.fails w = false

/-- Side conditions tying an event to reachable handler states: a joining
socket is fresh (not already a key of its room), a joining display name is
nonempty, and a routed message's socket is still a member of its room. -/
def eventWf (reg : Registry) : Event → Prop
  | .joinE roomId ws user =>
      user ≠ "" ∧ ((reg.lookup roomId).getD freshRoom).clients.all (fun p => p.1 != ws)
  | .msgE roomId ws _ =>
      ∀ room, reg.lookup roomId = some room → (room.clients.lookup ws).isSome
  | .teardownE _ _ => True

/-- A successful dict lookup exhibits a matching entry. -/
theorem lookup_mem_pair {α β : Type} [BEq α] [LawfulBEq α] :
    ∀ {l : List (α × β)} {k : α} {v : β}, l.lookup k = some v → (k, v) ∈ l := by
  intro l
  induction l with
  | nil => intro k v h; simp [List.lookup] at h
  | cons p rest ih =>
      intro k v h
      rw [List.lookup] at h
      by_cases hk : k == p.1
      · simp [hk] at h
        have : p.1 = k := (eq_of_beq hk).symm
        subst this
        subst h
        exact List.mem_cons_self _ _
      · simp [hk] at h
        exact List.mem_cons_of_mem _ (ih h)

/-- A successful lookup of a socket yields a display name among the values. -/
theorem lookup_values_mem {l : List (Ws × String)} {k : Ws} {v : String}
    (h : l.lookup k = some v) : v ∈ l.map (fun p => p.2) :=
  List.mem_map.mpr ⟨(k, v), lookup_mem_pair h, rfl⟩

/-- A failed dict lookup means no entry has that key. -/
theorem lookup_none_keys {α β : Type} [BEq α] [LawfulBEq α]
    {l : List (α × β)} {k : α} (h : l.lookup k = none) :
    ∀ p ∈ l, (p.1 == k) = false := by
  induction l with
  | nil => intro p hp; simp at hp
  | cons q rest ih =>
      rw [List.lookup] at h
      by_cases hk : k == q.1
      · simp [hk] at h
      · intro p hp
        rcases List.mem_cons.mp hp with rfl | hmem
        · have : ¬k = p.1 := fun he => hk (by simp [he])
          simpa using fun he => this he.symm
        · exact ih (by simpa [hk] using h) p hmem

/-- With unique keys, membership determines the lookup result. -/
theorem nodup_lookup_of_mem {α β : Type} [BEq α] [LawfulBEq α] :
    ∀ {l : List (α × β)} {k : α} {v : β},
      (l.map (fun p => p.1)).Nodup → (k, v) ∈ l → l.lookup k = some v := by
  intro l
  induction l with
  | nil => intro k v _ h; simp at h
  | cons q rest ih =>
      intro k v hnd hmem
      rw [List.map_cons] at hnd
      have hnd2 := List.nodup_cons.mp hnd
      rcases List.mem_cons.mp hmem with heq | hmem2
      · subst heq
        simp [List.lookup]
      · have hkq : (k == q.1) = false := by
          rw [beq_eq_false_iff_ne]
          intro hb
          exact hnd2.1 (hb ▸ List.mem_map.mpr ⟨(k, v), hmem2, rfl⟩)
        rw [List.lookup]
        simp only [hkq]
        exact ih hnd2.2 hmem2

/-- Registering a genuinely new socket appends to the clients dict. -/
theorem dictInsert_fresh {cs : List (Ws × String)} {w : Ws} {u : String}
    (h : cs.all (fun p => p.1 != w) = true) : dictInsert cs w u = cs ++ [(w, u)] := by
  unfold dictInsert
  have : cs.any (fun p => p.1 == w) = false := by
    rw [List.any_eq_false]
    intro p hp
    have := List.all_eq_true.mp h p hp
    simpa [bne] using this
  simp [this]

/-- When no send raises, `broadcast` collects no dead sockets. -/
theorem broadcastGo_dead_nil {env : Env} {payload : J} {ex : Option Ws}
    (hNF : noFail env) : ∀ cs, (broadcastGo env payload ex cs).1 = [] := by
  intro cs
  induction cs with
  | nil => rfl
  | cons p rest ih =>
      obtain ⟨w, u⟩ := p
      rw [broadcastGo]
      by_cases he : ex = some w
      · subst he
        simp [ih]
      · simp [he, hNF w, ih]
        split <;> simp [ih]

/-- When no send raises, `broadcast` leaves the room untouched. -/
theorem broadcast_noFail_room {env : Env} {room : Room} {payload : J} {ex : Option Ws}
    (hNF : noFail env) : (broadcast env room payload ex).1 = room := by
  simp only [broadcast]
  rw [broadcastGo_dead_nil hNF]
  simp

/-- With every socket open and none raising, an un-excluded broadcast delivers
the payload to every member, in membership order. -/
theorem broadcastGo_healthy_none {env : Env} {payload : J}
    (hO : ∀ w, env.isOpen w = true) (hNF : noFail env) :
    ∀ cs, broadcastGo env payload none cs = ([], cs.map (fun p => (p.1, payload))) := by
  intro cs
  induction cs with
  | nil => rfl
  | cons p rest ih =>
      obtain ⟨w, u⟩ := p
      rw [broadcastGo]
      simp [hO w, hNF w, ih]

/-- With every socket open and none raising, an excluded broadcast delivers
the payload to every member other than the excluded one. -/
theorem broadcastGo_healthy_some {env : Env} {payload : J} {x : Ws}
    (hO : ∀ w, env.isOpen w = true) (hNF : noFail env) :
    ∀ cs, broadcastGo env payload (some x) cs =
      ([], (cs.filter (fun p => p.1 != x)).map (fun p => (p.1, payload))) := by
  intro cs
  induction cs with
  | nil => rfl
  | cons p rest ih =>
      obtain ⟨w, u⟩ := p
      rw [broadcastGo]
      by_cases he : x = w
      · subst he
        simp [ih]
      · have : ¬((some x : Option Ws) = some w) := by simp [he]
        simp [this, hO w, hNF w, ih, bne, Ne.symm he]

/-- Healthy-transport form of `broadcast` without exclusion. -/
theorem broadcast_healthy_none {env : Env} {room : Room} {payload : J}
    (hO : ∀ w, env.isOpen w = true) (hNF : noFail env) :
    broadcast env room payload none = (room, room.clients.map (fun p => (p.1, payload))) := by
  simp only [broadcast]
  rw [broadcastGo_healthy_none hO hNF]
  simp

/-- Healthy-transport form of `broadcast` with an excluded socket. -/
theorem broadcast_healthy_some {env : Env} {room : Room} {payload : J} {x : Ws}
    (hO : ∀ w, env.isOpen w = true) (hNF : noFail env) :
    broadcast env room payload (some x) =
      (room, (room.clients.filter (fun p => p.1 != x)).map (fun p => (p.1, payload))) := by
  simp only [broadcast]
  rw [broadcastGo_healthy_some hO hNF]
  simp

/-- `send_to_user` returns the room it was given. -/
theorem send_to_user_fst (env : Env) (room : Room) (username payload : J) :
    (send_to_user env room username payload).1 = room := by
  unfold send_to_user
  cases ws_for_username room username with
  | none => rfl
  | some w => dsimp only; split <;> [skip; rfl]; split <;> rfl

/-- A `filterMap` whose function is a guarded `some` is a filter then a map. -/
theorem filterMap_if {α β : Type} (c : α → Bool) (f : α → β) :
    ∀ l : List α,
      l.filterMap (fun a => if c a then some (f a) else none) = (l.filter c).map f := by
  intro l
  induction l with
  | nil => rfl
  | cons a rest ih =>
      by_cases h : c a
      · simp [List.filterMap_cons, List.filter_cons, h, ih]
      · simp [List.filterMap_cons, List.filter_cons, h, ih]

/-- A `findSome?` whose function is a guarded `some` is a `find?` then a map. -/
theorem findSome?_guard {α β : Type} (c : α → Bool) (f : α → β) :
    ∀ l : List α,
      l.findSome? (fun a => if c a then some (f a) else none) = (l.find? c).map f := by
  intro l
  induction l with
  | nil => rfl
  | cons a rest ih =>
      by_cases h : c a
      · simp [List.findSome?_cons, List.find?_cons, h]
      · simp [List.findSome?_cons, List.find?_cons, h, ih]

/-- The code-point order is irreflexive. -/
theorem charsLt_irrefl : ∀ a : List Char, charsLt a a = false := by
  intro a
  induction a with
  | nil => rfl
  | cons c rest ih => simp [charsLt, ih]

/-- The code-point order is transitive. -/
theorem charsLt_trans : ∀ a b c : List Char,
    charsLt a b = true → charsLt b c = true → charsLt a c = true := by
  intro a
  induction a with
  | nil =>
      intro b c hab hbc
      cases b with
      | nil => simp [charsLt] at hab
      | cons y ys =>
          cases c with
          | nil => simp [charsLt] at hbc
          | cons z zs => simp [charsLt]
  | cons x xs ih =>
      intro b c hab hbc
      cases b with
      | nil => simp [charsLt] at hab
      | cons y ys =>
          cases c with
          | nil => simp [charsLt] at hbc
          | cons z zs =>
              rw [charsLt] at hab hbc ⊢
              by_cases hxy : x.toNat < y.toNat
              · by_cases hyz : y.toNat < z.toNat
                · simp [Nat.lt_trans hxy hyz]
                · by_cases hzy : z.toNat < y.toNat
                  · simp [hyz, hzy] at hbc
                  · have : y.toNat = z.toNat := Nat.le_antisymm (Nat.le_of_not_lt hzy) (Nat.le_of_not_lt hyz)
                    simp [this ▸ hxy]
              · by_cases hyx : y.toNat < x.toNat
                · simp [hxy, hyx] at hab
                · have hxyeq : x.toNat = y.toNat := Nat.le_antisymm (Nat.le_of_not_lt hyx) (Nat.le_of_not_lt hxy)
                  simp [hxy, hyx] at hab
                  by_cases hyz : y.toNat < z.toNat
                  · simp [hxyeq ▸ hyz]
                  · by_cases hzy : z.toNat < y.toNat
                    · simp [hyz, hzy] at hbc
                    · simp [hyz, hzy] at hbc
                      simp [hxyeq ▸ hyz, hxyeq ▸ hzy]
                      exact ih ys zs hab hbc

/-- The code-point order is total: two mutually non-smaller lists are equal. -/
theorem charsLt_connex : ∀ a b : List Char,
    charsLt a b = false → charsLt b a = false → a = b := by
  intro a
  induction a with
  | nil =>
      intro b hab _
      cases b with
      | nil => rfl
      | cons y ys => simp [charsLt] at hab
  | cons x xs ih =>
      intro b hab hba
      cases b with
      | nil => simp [charsLt] at hba
      | cons y ys =>
          rw [charsLt] at hab hba
          by_cases hxy : x.toNat < y.toNat
          · simp [hxy] at hab
          · by_cases hyx : y.toNat < x.toNat
            · simp [hxy, hyx] at hab
              simp [hyx] at hba
            · have hxyeq : x.toNat = y.toNat :=
                Nat.le_antisymm (Nat.le_of_not_lt hyx) (Nat.le_of_not_lt hxy)
              have hc : x = y := by
                apply Char.ext
                apply UInt32.toNat.inj
                simpa [Char.toNat] using hxyeq
              simp [hxy, hyx] at hab hba
              rw [hc, ih ys hab hba]

/-- Python string `<` is irreflexive. -/
theorem pyStrLt_irrefl (s : String) : pyStrLt s s = false := charsLt_irrefl s.data

/-- Python string `<` is transitive. -/
theorem pyStrLt_trans {a b c : String} (h1 : pyStrLt a b = true) (h2 : pyStrLt b c = true) :
    pyStrLt a c = true := charsLt_trans a.data b.data c.data h1 h2

/-- Python string `<` is total. -/
theorem pyStrLt_connex {a b : String} (h1 : pyStrLt a b = false) (h2 : pyStrLt b a = false) :
    a = b :=
  String.ext (charsLt_connex a.data b.data h1 h2)

/-- Python string `<` is asymmetric. -/
theorem pyStrLt_asymm {a b : String} (h : pyStrLt a b = true) : pyStrLt b a = false := by
  by_contra hba
  have hba2 : pyStrLt b a = true := by
    cases hb : pyStrLt b a
    · exact absurd hb hba
    · rfl
  have := pyStrLt_trans h hba2
  rw [pyStrLt_irrefl a] at this
  exact Bool.false_ne_true this

/-- Minimality transfers along the order: if nothing below `b` and `c` is not
below `b`, then `c` is not below `a` whenever `b` is not below `a`. -/
theorem pyStrLt_notLt_trans {a b c : String}
    (h1 : pyStrLt b a = false) (h2 : pyStrLt c b = false) : pyStrLt c a = false := by
  cases hca : pyStrLt c a
  · rfl
  · exfalso
    by_cases hbc : pyStrLt b c = true
    · have := pyStrLt_trans hbc hca
      rw [h1] at this
      exact Bool.false_ne_true this
    · have hbc2 : pyStrLt b c = false := by
        cases hb : pyStrLt b c
        · rfl
        · exact absurd hb hbc
      have : b = c := pyStrLt_connex hbc2 h2
      rw [this, hca] at h1
      exact Bool.false_ne_true h1.symm

/-- One step of the Python `min` fold never moves the accumulator up. -/
theorem pyMinStep_le (best x : String) :
    pyStrLt best (if pyStrLt x best then x else best) = false := by
  by_cases h : pyStrLt x best = true
  · simp only [h, if_pos]
    exact pyStrLt_asymm h
  · simp only [h, if_neg]
    exact pyStrLt_irrefl best

/-- One step of the Python `min` fold bounds the new candidate. -/
theorem pyMinStep_le2 (best x : String) :
    pyStrLt x (if pyStrLt x best then x else best) = false := by
  by_cases h : pyStrLt x best = true
  · simp only [h, if_pos]
    exact pyStrLt_irrefl x
  · simp only [h, if_neg]
    simpa using h

/-- The fold of Python `min` stays inside the candidates. -/
theorem pyMinFold_mem : ∀ (xs : List String) (best : String),
    xs.foldl (fun best v => if pyStrLt v best then v else best) best = best ∨
    xs.foldl (fun best v => if pyStrLt v best then v else best) best ∈ xs := by
  intro xs
  induction xs with
  | nil => intro best; left; rfl
  | cons x rest ih =>
      intro best
      rw [List.foldl_cons]
      by_cases h : pyStrLt x best
      · rcases ih x with h1 | h1
        · right; simp [h, h1]
        · right; simp [h]; right; exact h1
      · rcases ih best with h1 | h1
        · left; simpa [h] using h1
        · right; simp [h]; right; exact h1

/-- The fold of Python `min` is a lower bound for all candidates. -/
theorem pyMinFold_min : ∀ (xs : List String) (best v : String),
    (v = best ∨ v ∈ xs) →
    pyStrLt v (xs.foldl (fun best v => if pyStrLt v best then v else best) best) = false := by
  intro xs
  induction xs with
  | nil =>
      intro best v hv
      rcases hv with rfl | hv
      · simpa using pyStrLt_irrefl v
      · simp at hv
  | cons x rest ih =>
      intro best v hv
      rw [List.foldl_cons]
      have hstep := ih (if pyStrLt x best then x else best)
        (if pyStrLt x best then x else best) (Or.inl rfl)
      rcases hv with rfl | hv
      · exact pyStrLt_notLt_trans hstep (pyMinStep_le v x)
      · rcases List.mem_cons.mp hv with rfl | hv2
        · exact pyStrLt_notLt_trans hstep (pyMinStep_le2 best v)
        · exact ih _ v (Or.inr hv2)

/-- Python `min` of a nonempty list is a member. -/
theorem pyMin_mem {x : String} {xs : List String} :
    ∀ {m : String}, pyMin (x :: xs) = some m → m ∈ x :: xs := by
  intro m hm
  simp [pyMin] at hm
  rcases pyMinFold_mem xs x with h | h
  · rw [← hm, h]
    exact List.mem_cons_self _ _
  · rw [← hm]
    exact List.mem_cons_of_mem _ h

/-- Python `min` of a nonempty list is a lower bound. -/
theorem pyMin_min {x : String} {xs : List String} {m : String}
    (hm : pyMin (x :: xs) = some m) : ∀ v ∈ x :: xs, pyStrLt v m = false := by
  intro v hv
  simp [pyMin] at hm
  rcases List.mem_cons.mp hv with rfl | hv
  · rw [← hm]
    exact pyMinFold_min xs v v (Or.inl rfl)
  · rw [← hm]
    exact pyMinFold_min xs x v (Or.inr hv)

/-- `all` over rooms survives an update whose new room also satisfies it. -/
theorem all_updateReg (Q : Room → Bool) {reg : Registry} {id : String} {room : Room}
    (hall : reg.all (fun p => Q p.2) = true) (hr : Q room = true) :
    (updateReg reg id room).all (fun p => Q p.2) = true := by
  unfold updateReg
  by_cases h : reg.any (fun p => p.1 == id)
  · rw [if_pos h, List.all_eq_true]
    intro p hp
    rcases List.mem_map.mp hp with ⟨q, hq, rfl⟩
    by_cases hqid : q.1 == id
    · simpa [hqid] using hr
    · simpa [hqid] using List.all_eq_true.mp hall q hq
  · rw [if_neg h, List.all_append]
    simp only [Bool.and_eq_true]
    constructor
    · exact hall
    · simpa using hr

/-- `all` over rooms survives deleting a room. -/
theorem all_eraseReg (Q : Room → Bool) {reg : Registry} {id : String}
    (hall : reg.all (fun p => Q p.2) = true) :
    (eraseReg reg id).all (fun p => Q p.2) = true := by
  rw [List.all_eq_true]
  intro p hp
  exact List.all_eq_true.mp hall p (List.mem_of_mem_filter hp)

/-- A registered room satisfies any property holding over the registry. -/
theorem all_of_lookup (Q : Room → Bool) {reg : Registry} {id : String} {room : Room}
    (hl : reg.lookup id = some room) (hall : reg.all (fun p => Q p.2) = true) :
    Q room = true :=
  List.all_eq_true.mp hall (id, room) (lookup_mem_pair hl)

/-- A message with a readable field is a JSON object. -/
theorem isObj_of_get {msg : J} {k : String} {v : J} (h : msg.get k = some v) :
    msg.isObj = true := by
  cases msg <;> try rfl
  all_goals simp [J.get] at h

/-- String comparison against a JSON value characterised. -/
theorem strEqJ_iff {s : String} {v : J} : strEqJ s v = true ↔ v = J.str s := by
  cases v <;> simp [strEqJ]


/-- A message whose `type` compares equal to `s` carries `type: s`. -/
theorem tyIs_some {msg : J} {s : String} (h : tyIs msg s = true) :
    msg.get "type" = some (.str s) := by
  unfold tyIs at h
  cases hg : msg.get "type" with
  | none => rw [hg] at h; simp at h
  | some v =>
      rw [hg] at h
      have h2 : strEqJ s v = true := h
      rw [strEqJ_iff.mp h2]

/-- A message typed `s` does not compare equal to a different type string. -/
theorem tyIs_ne {msg : J} {s t : String} (h : tyIs msg s = true) (hne : s ≠ t) :
    tyIs msg t = false := by
  unfold tyIs
  rw [tyIs_some h]
  simp [strEqJ]
  exact hne

/-- A message with a `type` field is a JSON object. -/
theorem isObj_of_tyIs {msg : J} {s : String} (h : tyIs msg s = true) : msg.isObj = true :=
  isObj_of_get (tyIs_some h)

/-- `muteStep` never mutates the room. -/
theorem muteStep_room (env : Env) (room : Room) (sender : String) :
    (muteStep env room sender).room = room := by
  unfold muteStep
  split <;> rfl

/-- `kickStep` never mutates the room. -/
theorem kickStep_room (env : Env) (room : Room) (sender : String) (msg : J) :
    (kickStep env room sender msg).room = room := by
  unfold kickStep
  split
  · split
    · rfl
    · split
      · split <;> rfl
      · rfl
  · rfl

/-- `introStep` never mutates the room. -/
theorem introStep_room (env : Env) (room : Room) (sender : String) (msg : J) :
    (introStep env room sender msg).room = room := by
  unfold introStep
  split <;> rfl

/-- `signalStep` never mutates the room. -/
theorem signalStep_room (env : Env) (room : Room) (sender : String) (msg : J) :
    (signalStep env room sender msg).room = room := rfl

/-- `iamHostStep` keeps the membership when no send raises. -/
theorem iamHostStep_clients {env : Env} (hNF : noFail env) (room : Room) (sender : String) :
    (iamHostStep env room sender).room.clients = room.clients := by
  unfold iamHostStep
  split
  · rw [broadcast_noFail_room hNF]
  · rfl

/-- `transferStep` keeps the membership when no send raises. -/
theorem transferStep_clients {env : Env} (hNF : noFail env) (room : Room) (sender : String)
    (msg : J) : (transferStep env room sender msg).room.clients = room.clients := by
  unfold transferStep
  split
  · split
    · rw [broadcast_noFail_room hNF]
    · rfl
  · rfl

/-- `transferStep` only installs a current member as host. -/
theorem transferStep_hostOk {env : Env} (hNF : noFail env) {room : Room} (sender : String)
    (msg : J) (hOk : hostOkB room = true) :
    hostOkB (transferStep env room sender msg).room = true := by
  unfold transferStep
  split
  · split
    · rename_i s heq hcond
      rw [broadcast_noFail_room hNF]
      unfold hostOkB
      rw [List.any_eq_true]
      rcases List.mem_map.mp hcond.2 with ⟨p, hp, hp2⟩
      exact ⟨p, hp, by simp [hp2]⟩
    · exact hOk
  · exact hOk

/-- `chatStep` keeps the room when no send raises. -/
theorem chatStep_room {env : Env} (hNF : noFail env) {room : Room} {sender : String}
    {msg : J} {o : StepOut} (h : chatStep env room sender msg = some o) :
    o.room = room := by
  unfold chatStep at h
  split at h
  · exact absurd h (by simp)
  · split at h
    · cases h; rfl
    · split at h
      · split at h
        · cases h; rfl
        · cases h
          rw [broadcast_noFail_room hNF]
      · cases h
        rw [broadcast_noFail_room hNF]

/-- `fallbackStep` keeps the room when no send raises. -/
theorem fallbackStep_room {env : Env} (hNF : noFail env) (room : Room) (ws : Ws) (msg : J) :
    (fallbackStep env room ws msg).room = room := by
  unfold fallbackStep
  rw [broadcast_noFail_room hNF]

/-- When no send raises, routing a message never changes the membership. -/
theorem runMsg_clients {env : Env} (hNF : noFail env) {room : Room} {ws : Ws} {msg : J}
    {o : StepOut} (h : runMsg env room ws msg = some o) :
    o.room.clients = room.clients := by
  unfold runMsg at h
  split at h
  · exact absurd h (by simp)
  · split at h
    · cases h; exact iamHostStep_clients hNF room _
    · split at h
      · cases h; rw [muteStep_room]
      · split at h
        · cases h; rw [kickStep_room]
        · split at h
          · cases h; exact transferStep_clients hNF room _ msg
          · split at h
            · cases h; rw [introStep_room]
            · split at h
              · cases h; rw [signalStep_room]
              · split at h
                · rw [chatStep_room hNF h]
                · cases h; rw [fallbackStep_room hNF]

/-- When no send raises and the sender is still registered, routing a message
preserves the host invariant of its room. -/
theorem runMsg_hostOk {env : Env} (hNF : noFail env) {room : Room} {ws : Ws} {msg : J}
    (hMem : (room.clients.lookup ws).isSome = true) (hOk : hostOkB room = true)
    {o : StepOut} (h : runMsg env room ws msg = some o) : hostOkB o.room = true := by
  obtain ⟨u, hu⟩ := Option.isSome_iff_exists.mp hMem
  have hsender : senderName room ws = u := by simp [senderName, hu]
  have humem : u ∈ room.clients.map (fun p => p.2) := lookup_values_mem hu
  unfold runMsg at h
  split at h
  · exact absurd h (by simp)
  · split at h
    · -- iam_host
      cases h
      unfold iamHostStep
      split
      · rw [broadcast_noFail_room hNF]
        unfold hostOkB
        simp only [hsender]
        rw [List.any_eq_true]
        rcases List.mem_map.mp humem with ⟨p, hp, hp2⟩
        exact ⟨p, hp, by simp [hp2]⟩
      · exact hOk
    · split at h
      · cases h; rw [muteStep_room]; exact hOk
      · split at h
        · cases h; rw [kickStep_room]; exact hOk
        · split at h
          · cases h; exact transferStep_hostOk hNF _ msg hOk
          · split at h
            · cases h; rw [introStep_room]; exact hOk
            · split at h
              · cases h; rw [signalStep_room]; exact hOk
              · split at h
                · rw [chatStep_room hNF h]; exact hOk
                · cases h; rw [fallbackStep_room hNF]; exact hOk

/-- When no send raises, teardown leaves exactly the other sockets behind. -/
theorem teardownRoom_clients {env : Env} (hNF : noFail env) (room : Room) (ws : Ws) :
    (teardownRoom env room ws).1.clients = room.clients.filter (fun p => p.1 != ws) := by
  simp only [teardownRoom]
  rw [broadcast_noFail_room hNF]
  split
  · rw [broadcast_noFail_room hNF]
  · rfl

/-- When no send raises, teardown of a well-formed room preserves the host
invariant: either the failover branch installs a remaining member (or `none`),
or the host was someone else and survives the removal. -/
theorem teardownRoom_hostOk {env : Env} (hNF : noFail env) {room : Room} (ws : Ws)
    (hWf : roomWfB room = true) (hOk : hostOkB room = true) :
    hostOkB (teardownRoom env room ws).1 = true := by
  simp only [teardownRoom]
  rw [broadcast_noFail_room hNF]
  split
  · -- failover branch: new host is the minimum of the remaining names
    rw [broadcast_noFail_room hNF]
    unfold hostOkB
    cases hnames : (usernames_in_room { room with clients := room.clients.filter (fun p => p.1 != ws) }) with
    | nil =>
        simp only [hnames]
        rfl
    | cons x xs =>
        obtain ⟨m, hm⟩ : ∃ m, pyMin (x :: xs) = some m := ⟨_, rfl⟩
        simp only [hnames, hm]
        have hmem := pyMin_mem hm
        rw [← hnames] at hmem
        unfold usernames_in_room at hmem
        refine List.any_eq_true.mpr ?_
        rcases List.mem_map.mp hmem with ⟨p, hp, hp2⟩
        exact ⟨p, hp, by simp [hp2]⟩
  · -- no failover: the host (if any) was not the removed name
    rename_i hfix
    unfold hostOkB
    dsimp only
    cases hh : room.host with
    | none => rfl
    | some h =>
        have hOk2 : ∃ p ∈ room.clients, (p.2 == h) = true := by
          unfold hostOkB at hOk
          rw [hh] at hOk
          exact List.any_eq_true.mp (by simpa using hOk)
        obtain ⟨p, hp, hpv⟩ := hOk2
        obtain ⟨pw, pu⟩ := p
        have hpu : pu = h := by simpa using hpv
        refine List.any_eq_true.mpr ?_
        cases hlk : room.clients.lookup ws with
        | none =>
            have hkeys := lookup_none_keys hlk
            refine ⟨(pw, pu), List.mem_filter.mpr ⟨hp, ?_⟩, hpv⟩
            have := hkeys (pw, pu) hp
            simp only [bne]
            simp at this ⊢
            exact this
        | some u =>
            rw [hlk] at hfix
            dsimp only at hfix
            rw [hh] at hfix
            -- hfix : ¬(u != "" && (some h == some u)) = true
            have hwf2 := (Bool.and_eq_true _ _).mp hWf
            have hune : (u != "") = true := by
              have hu : u ∈ room.clients.map (fun q => q.2) := lookup_values_mem hlk
              rcases List.mem_map.mp hu with ⟨q, hq, hq2⟩
              have := List.all_eq_true.mp hwf2.2 q hq
              rw [hq2] at this
              exact this
            have hhu : h ≠ u := by
              intro he
              apply hfix
              simp [hune, he]
            have hpk : ¬pw = ws := by
              intro he
              have hnd : (room.clients.map (fun q => q.1)).Nodup := by
                simpa using hwf2.1
              have hlp : room.clients.lookup pw = some pu :=
                nodup_lookup_of_mem hnd hp
              rw [he, hlk] at hlp
              have hupu : u = pu := by simpa using hlp
              exact hhu (by rw [← hpu, ← hupu])
            refine ⟨(pw, pu), List.mem_filter.mpr ⟨hp, ?_⟩, hpv⟩
            simp only [bne]
            simpa using hpk

/-- Registering a client never leaves an empty dict. -/
theorem dictInsert_ne_nil (cs : List (Ws × String)) (w : Ws) (u : String) :
    (dictInsert cs w u).isEmpty = false := by
  unfold dictInsert
  split
  · rename_i h
    cases cs with
    | nil => simp at h
    | cons q rest => simp
  · cases cs <;> simp

/-- The registered display name is among the values after `dictInsert`. -/
theorem dictInsert_user_mem (cs : List (Ws × String)) (w : Ws) (u : String) :
    u ∈ (dictInsert cs w u).map (fun p => p.2) := by
  unfold dictInsert
  split
  · rename_i h
    rcases List.any_eq_true.mp h with ⟨q, hq, hq2⟩
    refine List.mem_map.mpr ⟨(w, u), ?_, rfl⟩
    refine List.mem_map.mpr ⟨q, hq, ?_⟩
    simp [hq2]
  · simp

/-- Under no send failure, the room written back by admission has the joiner
registered and the host filled in exactly when it was vacant. -/
theorem joinRoom_noFail_room {env : Env} {reg : Registry} {roomId : String} {ws : Ws}
    {user : String} (hNF : noFail env) {p : Registry × List (Ws × J)}
    (h : joinRoom env reg roomId ws user = some p) :
    p.1 = updateReg reg roomId
      ⟨dictInsert ((reg.lookup roomId).getD freshRoom).clients ws user,
       if ((reg.lookup roomId).getD freshRoom).host = none then some user
       else ((reg.lookup roomId).getD freshRoom).host⟩ := by
  simp only [joinRoom] at h
  split at h
  · split at h
    · rw [broadcast_noFail_room hNF, broadcast_noFail_room hNF] at h
      cases h
      simp [*]
    · rw [broadcast_noFail_room hNF] at h
      cases h
      simp [*]
  · exact absurd h (by simp)

/-- C1 and C2 share this step relation; this records that an admission according
to `stepEvent` reduces to `joinRoom`. -/
theorem stepEvent_join {env : Env} {reg : Registry} {roomId : String} {ws : Ws}
    {user : String} {res : Registry × List (Ws × J) × List Ws}
    (h : stepEvent env reg (.joinE roomId ws user) = some res) :
    ∃ p, joinRoom env reg roomId ws user = some p ∧ res.1 = p.1 := by
  simp only [stepEvent] at h
  cases hp : joinRoom env reg roomId ws user with
  | none => rw [hp] at h; simp at h
  | some p =>
      rw [hp] at h
      cases h
      exact ⟨p, rfl, rfl⟩

/-- An all-healthy transport: every socket open, no send raises. -/
def envHealthy : Env := ⟨fun _ => true, fun _ => false⟩

/-- A transport where socket 1 is open but raises on send. -/
def envFail1 : Env := ⟨fun _ => true, fun w => w == 1⟩

/-- A transport where every socket is open and every send raises. -/
def envFailAll : Env := ⟨fun _ => true, fun _ => true⟩

/-- A two-member room hosted by amy. -/
def roomAB : Room := ⟨[(1, "amy"), (2, "bob")], some "amy"⟩

/-- A room-wide chat message. -/
def chatHi : J := .obj [("type", .str "chat"), ("text", .str "hi")]

/-- C1 counterexample: the claim as stated is false. Starting from a registry
satisfying the host invariant, routing one room-wide `chat` while the host's
socket raises on send prunes the host from `members` inside `broadcast` but
leaves `room.host` naming it, so the invariant is broken right after this
event. -/
theorem C1_counterexample :
    regHostOk [("r", roomAB)] = true ∧
    stepEvent envFail1 [("r", roomAB)] (.msgE "r" 2 chatHi) =
      some ([("r", ⟨[(2, "bob")], some "amy"⟩)], [(2, chatBaseMsg "bob" "hi")], []) ∧
    regHostOk [("r", ⟨[(2, "bob")], some "amy"⟩)] = false := by
  refine ⟨rfl, rfl, rfl⟩

/-- C1 (amended): when no send raises during the event — and the event is
well-formed: an admission registers a fresh socket under a nonempty name, a
routed message comes from a socket still registered in its room — then after
every admission, routed message, and disconnect teardown, every registered
room's `host` is `none` or a display name present among that room's `members`
values. (The send-failure pruning inside `broadcast`, excluded here, is the
one path that violates the invariant.) -/
theorem C1_host_invariant (env : Env) (reg : Registry) (e : Event)
    (hNF : noFail env) (hWf : regWf reg = true) (hOk : regHostOk reg = true)
    (hEv : eventWf reg e) :
    ∀ res, stepEvent env reg e = some res → regHostOk res.1 = true := by
  intro res h
  cases e with
  | joinE roomId ws user =>
      obtain ⟨p, hp, hres⟩ := stepEvent_join h
      rw [hres, joinRoom_noFail_room hNF hp]
      apply all_updateReg _ hOk
      unfold hostOkB
      dsimp only
      cases hh : ((reg.lookup roomId).getD freshRoom).host with
      | none =>
          refine List.any_eq_true.mpr ?_
          rcases List.mem_map.mp (dictInsert_user_mem
            ((reg.lookup roomId).getD freshRoom).clients ws user) with ⟨q, hq, hq2⟩
          exact ⟨q, hq, by simp [hq2]⟩
      | some h0 =>
          have hmem0 : ∃ q ∈ ((reg.lookup roomId).getD freshRoom).clients,
              (q.2 == h0) = true := by
            cases hlkr : reg.lookup roomId with
            | none => rw [hlkr] at hh; simp [freshRoom] at hh
            | some r0 =>
                have hOk0 : hostOkB r0 = true := all_of_lookup hostOkB hlkr hOk
                rw [hlkr] at hh
                unfold hostOkB at hOk0
                rw [show r0.host = some h0 from by simpa using hh] at hOk0
                exact List.any_eq_true.mp (by simpa using hOk0)
          rw [dictInsert_fresh hEv.2]
          refine List.any_eq_true.mpr ?_
          obtain ⟨q, hq, hq2⟩ := hmem0
          exact ⟨q, List.mem_append.mpr (Or.inl hq), hq2⟩
  | msgE roomId ws msg =>
      simp only [stepEvent] at h
      cases hlk : reg.lookup roomId with
      | none => rw [hlk] at h; simp at h
      | some room =>
          simp only [hlk] at h
          cases ho : runMsg env room ws msg with
          | none => rw [ho] at h; simp at h
          | some o =>
              rw [ho, Option.map_some'] at h
              cases h
              apply all_updateReg _ hOk
              exact runMsg_hostOk hNF (hEv room hlk) (all_of_lookup hostOkB hlk hOk) ho
  | teardownE roomId ws =>
      simp only [stepEvent] at h
      cases hlk : reg.lookup roomId with
      | none => rw [hlk] at h; simp at h
      | some room =>
          simp only [hlk] at h
          cases h
          dsimp only
          split
          · exact all_eraseReg _ hOk
          · apply all_updateReg _ hOk
            exact teardownRoom_hostOk hNF ws (all_of_lookup roomWfB hlk hWf)
              (all_of_lookup hostOkB hlk hOk)

/-- C1 witness: the amended theorem applied to a healthy two-member room and a
room-wide chat event. -/
theorem C1_witness : regHostOk [("r", roomAB)] = true :=
  C1_host_invariant envHealthy [("r", roomAB)] (.msgE "r" 2 chatHi)
    (fun _ => rfl) (by decide) (by decide)
    (by intro room hr; cases hr; rfl)
    ([("r", roomAB)], [(1, chatBaseMsg "bob" "hi"), (2, chatBaseMsg "bob" "hi")], [])
    rfl

/-- C2 counterexample: the claim as stated is false. Starting from a registry
with no empty room, routing one room-wide `chat` while every member's socket
raises on send empties the room inside `broadcast` yet leaves it in the
registry in the same step. -/
theorem C2_counterexample :
    regNonempty [("r", roomAB)] = true ∧
    stepEvent envFailAll [("r", roomAB)] (.msgE "r" 2 chatHi) =
      some ([("r", ⟨[], some "amy"⟩)], [], []) ∧
    regNonempty [("r", ⟨[], some "amy"⟩)] = false := by
  refine ⟨rfl, rfl, rfl⟩

/-- C2 (amended): when no send raises during the event, no event — admission,
routed message, or disconnect teardown — leaves an empty room in the registry;
in particular the teardown that removes the last member deletes the room in
the same step. (The send-failure pruning inside `broadcast`, excluded here,
can empty a room while leaving it registered until a later teardown.) -/
theorem C2_no_empty_rooms (env : Env) (reg : Registry) (e : Event)
    (hNF : noFail env) (hNE : regNonempty reg = true) :
    ∀ res, stepEvent env reg e = some res → regNonempty res.1 = true := by
  intro res h
  cases e with
  | joinE roomId ws user =>
      obtain ⟨p, hp, hres⟩ := stepEvent_join h
      rw [hres, joinRoom_noFail_room hNF hp]
      refine all_updateReg (fun r => !r.clients.isEmpty) hNE ?_
      simp [dictInsert_ne_nil]
  | msgE roomId ws msg =>
      simp only [stepEvent] at h
      cases hlk : reg.lookup roomId with
      | none => rw [hlk] at h; simp at h
      | some room =>
          simp only [hlk] at h
          cases ho : runMsg env room ws msg with
          | none => rw [ho] at h; simp at h
          | some o =>
              rw [ho, Option.map_some'] at h
              cases h
              refine all_updateReg (fun r => !r.clients.isEmpty) hNE ?_
              show (!o.room.clients.isEmpty) = true
              rw [show o.room.clients = room.clients from runMsg_clients hNF ho]
              exact all_of_lookup (fun r => !r.clients.isEmpty) hlk hNE
  | teardownE roomId ws =>
      simp only [stepEvent] at h
      cases hlk : reg.lookup roomId with
      | none => rw [hlk] at h; simp at h
      | some room =>
          simp only [hlk] at h
          cases h
          dsimp only
          split
          · exact all_eraseReg (fun r => !r.clients.isEmpty) hNE
          · rename_i hne
            refine all_updateReg (fun r => !r.clients.isEmpty) hNE ?_
            simp only [Bool.not_eq_true] at hne
            simp [hne]

/-- C2 witness: the amended theorem applied to the host's healthy disconnect,
where failover promotes bob and the surviving room is nonempty. -/
theorem C2_witness : regNonempty [("r", ⟨[(2, "bob")], some "bob"⟩)] = true :=
  C2_no_empty_rooms envHealthy [("r", roomAB)] (.teardownE "r" 1)
    (fun _ => rfl) rfl
    ([("r", ⟨[(2, "bob")], some "bob"⟩)],
     [(2, peerLeftMsg (some "amy")), (2, hostChangedMsg (some "bob"))], [])
    rfl

/-- C3: when a connection whose display name equals the room's host
disconnects (the name nonempty, the remaining transport healthy), teardown
removes exactly that socket, broadcasts `peer_left` to each remaining member,
sets the host to Python `min` of the remaining display names (or `None` on an
emptied room), and broadcasts `host_changed` with that value after the
`peer_left` batch; `min` is the lexicographically smallest remaining name. -/
theorem C3_host_failover (env : Env) (room : Room) (ws : Ws) (u : String)
    (hO : ∀ w, env.isOpen w = true) (hNF : noFail env)
    (hLookup : room.clients.lookup ws = some u) (hNe : u ≠ "")
    (hHost : room.host = some u) :
    teardownRoom env room ws =
      (⟨room.clients.filter (fun p => p.1 != ws),
        pyMin ((room.clients.filter (fun p => p.1 != ws)).map (fun p => p.2))⟩,
       (room.clients.filter (fun p => p.1 != ws)).map (fun p => (p.1, peerLeftMsg (some u)))
       ++ (room.clients.filter (fun p => p.1 != ws)).map (fun p =>
            (p.1, hostChangedMsg
              (pyMin ((room.clients.filter (fun q => q.1 != ws)).map (fun q => q.2)))))) ∧
    ((room.clients.filter (fun p => p.1 != ws)).map (fun p => p.2) = [] →
      pyMin ((room.clients.filter (fun p => p.1 != ws)).map (fun p => p.2)) = none) ∧
    (∀ x xs, (room.clients.filter (fun p => p.1 != ws)).map (fun p => p.2) = x :: xs →
      ∃ m, pyMin (x :: xs) = some m ∧ m ∈ x :: xs ∧ ∀ v ∈ x :: xs, pyStrLt v m = false) := by
  refine ⟨?_, ?_, ?_⟩
  · simp only [teardownRoom]
    rw [hLookup]
    rw [broadcast_healthy_none hO hNF]
    dsimp only
    rw [hHost]
    rw [if_pos (by simp [hNe])]
    rw [broadcast_healthy_none hO hNF]
    rfl
  · intro h
    rw [h]
    rfl
  · intro x xs hx
    exact ⟨_, rfl, pyMin_mem rfl, pyMin_min rfl⟩

/-- C3 witness: the host of a four-member room disconnects; "amy" (the
lexicographically smallest remaining name) is promoted, and `host_changed`
follows the `peer_left` batch. -/
theorem C3_witness :
    teardownRoom envHealthy ⟨[(0, "cid"), (1, "bob"), (2, "amy"), (3, "zig")], some "cid"⟩ 0 =
      (⟨[(1, "bob"), (2, "amy"), (3, "zig")], some "amy"⟩,
       [(1, peerLeftMsg (some "cid")), (2, peerLeftMsg (some "cid")),
        (3, peerLeftMsg (some "cid")),
        (1, hostChangedMsg (some "amy")), (2, hostChangedMsg (some "amy")),
        (3, hostChangedMsg (some "amy"))]) := by
  have h := C3_host_failover envHealthy
    ⟨[(0, "cid"), (1, "bob"), (2, "amy"), (3, "zig")], some "cid"⟩ 0 "cid"
    (fun _ => rfl) (fun _ => rfl) rfl (by decide) rfl
  rw [h.1]
  rfl

/-- C4: admission over a healthy transport, joining with a fresh socket. If
the room had no host the joiner is announced as host to the whole room
(joiner included); the joiner then receives `peer_list` naming every member
including itself together with the current host; then `peer_joined` goes to
every member except the joiner. A fresh room (absent from the registry)
elects the first joiner as host. -/
theorem C4_admission (env : Env) (reg : Registry) (roomId : String) (ws : Ws) (user : String)
    (hO : ∀ w, env.isOpen w = true) (hNF : noFail env)
    (hFresh : ((reg.lookup roomId).getD freshRoom).clients.all (fun p => p.1 != ws) = true) :
    (((reg.lookup roomId).getD freshRoom).host = none →
      joinRoom env reg roomId ws user =
        some (updateReg reg roomId
                ⟨((reg.lookup roomId).getD freshRoom).clients ++ [(ws, user)], some user⟩,
              (((reg.lookup roomId).getD freshRoom).clients ++ [(ws, user)]).map
                (fun p => (p.1, hostChangedMsg (some user)))
              ++ [(ws, peerListMsg
                    ((((reg.lookup roomId).getD freshRoom).clients ++ [(ws, user)]).map
                      (fun p => p.2))
                    (some user))]
              ++ ((reg.lookup roomId).getD freshRoom).clients.map
                   (fun p => (p.1, peerJoinedMsg user)))) ∧
    (∀ h0, ((reg.lookup roomId).getD freshRoom).host = some h0 →
      joinRoom env reg roomId ws user =
        some (updateReg reg roomId
                ⟨((reg.lookup roomId).getD freshRoom).clients ++ [(ws, user)], some h0⟩,
              [(ws, peerListMsg
                  ((((reg.lookup roomId).getD freshRoom).clients ++ [(ws, user)]).map
                    (fun p => p.2))
                  (some h0))]
              ++ ((reg.lookup roomId).getD freshRoom).clients.map
                   (fun p => (p.1, peerJoinedMsg user)))) ∧
    (reg.lookup roomId = none →
      joinRoom env reg roomId ws user =
        some (updateReg reg roomId ⟨[(ws, user)], some user⟩,
              [(ws, hostChangedMsg (some user)), (ws, peerListMsg [user] (some user))])) := by
  have hfilter : (((reg.lookup roomId).getD freshRoom).clients ++ [(ws, user)]).filter
      (fun p => p.1 != ws) = ((reg.lookup roomId).getD freshRoom).clients := by
    rw [List.filter_append]
    have h1 : ((reg.lookup roomId).getD freshRoom).clients.filter (fun p => p.1 != ws)
        = ((reg.lookup roomId).getD freshRoom).clients :=
      List.filter_eq_self.mpr (fun p hp => List.all_eq_true.mp hFresh p hp)
    rw [h1]
    simp
  have hopen : (env.isOpen ws && !env.fails ws) = true := by simp [hO ws, hNF ws]
  have hmain : ((reg.lookup roomId).getD freshRoom).host = none →
      joinRoom env reg roomId ws user =
        some (updateReg reg roomId
                ⟨((reg.lookup roomId).getD freshRoom).clients ++ [(ws, user)], some user⟩,
              (((reg.lookup roomId).getD freshRoom).clients ++ [(ws, user)]).map
                (fun p => (p.1, hostChangedMsg (some user)))
              ++ [(ws, peerListMsg
                    ((((reg.lookup roomId).getD freshRoom).clients ++ [(ws, user)]).map
                      (fun p => p.2))
                    (some user))]
              ++ ((reg.lookup roomId).getD freshRoom).clients.map
                   (fun p => (p.1, peerJoinedMsg user))) := by
    intro hh
    simp only [joinRoom]
    rw [dictInsert_fresh hFresh]
    rw [hh]
    rw [if_pos rfl]
    rw [broadcast_healthy_none hO hNF]
    rw [if_pos hopen]
    rw [broadcast_healthy_some hO hNF]
    rw [hfilter]
    rfl
  refine ⟨hmain, ?_, ?_⟩
  · intro h0 hh
    simp only [joinRoom]
    rw [dictInsert_fresh hFresh]
    rw [hh]
    rw [if_neg (show ¬((some h0 : Option String) = none) by simp)]
    rw [if_pos hopen]
    rw [broadcast_healthy_some hO hNF]
    rw [hfilter]
    rfl
  · intro hnone
    have hh : ((reg.lookup roomId).getD freshRoom).host = none := by
      rw [hnone]; rfl
    have := hmain hh
    rw [hnone] at this
    simpa [freshRoom] using this

/-- C4 witness: the first joiner to the fresh room "r9" is elected host and
receives `host_changed` then its own `peer_list`. -/
theorem C4_witness :
    joinRoom envHealthy [] "r9" 7 "amy" =
      some ([("r9", ⟨[(7, "amy")], some "amy"⟩)],
            [(7, hostChangedMsg (some "amy")), (7, peerListMsg ["amy"] (some "amy"))]) := by
  have h := (C4_admission envHealthy [] "r9" 7 "amy" (fun _ => rfl) (fun _ => rfl) rfl).2.2 rfl
  rw [h]
  rfl

/-- A directed signal with a client-supplied `from` field, as sent by a peer. -/
def sigMsg : J :=
  .obj [("type", .str "signal"), ("to", .str "bob"), ("from", .str "evil"),
        ("data", .obj [("x", .num 1)])]

/-- C5: a `signal` message carrying `to` is relayed with `from` overwritten by
the sender's display name regardless of any client-supplied value, and the
resulting envelope is delivered only to the connection resolved for `to` (and
only if that socket is open and does not raise); an unresolved `to` is
dropped with no delivery. The room is untouched and nothing is closed. -/
theorem C5_signal_routing (env : Env) (room : Room) (ws : Ws) (msg : J)
    (hTy : tyIs msg "signal" = true) (hTo : msg.hasKey "to" = true) :
    runMsg env room ws msg =
      some ⟨room,
        (match ws_for_username room ((msg.get "to").getD .null) with
         | some w =>
             if env.isOpen w && !env.fails w then
               [(w, msg.set "from" (.str (senderName room ws)))]
             else []
         | none => []), []⟩ := by
  have hObj := isObj_of_tyIs hTy
  have h1 := tyIs_ne hTy (show "signal" ≠ "iam_host" from by decide)
  have h2 := tyIs_ne hTy (show "signal" ≠ "host_mute_all" from by decide)
  have h3 := tyIs_ne hTy (show "signal" ≠ "host_kick" from by decide)
  have h4 := tyIs_ne hTy (show "signal" ≠ "transfer_host" from by decide)
  have h5 := tyIs_ne hTy (show "signal" ≠ "introduce_pair" from by decide)
  simp only [runMsg, hObj, h1, h2, h3, h4, h5, hTy, hTo, Bool.not_true, Bool.and_self,
    Bool.false_eq_true, if_false, if_true, Option.some.injEq]
  unfold signalStep send_to_user
  cases hw : ws_for_username room ((msg.get "to").getD J.null) with
  | none => simp [hw]
  | some w =>
      simp only [hw]
      by_cases ho : env.isOpen w
      · by_cases hf : env.fails w
        · simp [ho, hf]
        · simp [ho, hf]
      · simp [ho]

/-- C5 witness: a signal from amy to bob carrying a forged `from` is delivered
to bob's socket only, with `from` rewritten to "amy". -/
theorem C5_witness :
    runMsg envHealthy roomAB 1 sigMsg =
      some ⟨roomAB,
            [(2, .obj [("type", .str "signal"), ("to", .str "bob"), ("from", .str "amy"),
                       ("data", .obj [("x", .num 1)])])], []⟩ := by
  have h := C5_signal_routing envHealthy roomAB 1 sigMsg rfl rfl
  rw [h]
  rfl

/-- C10: a well-formed JSON message of type `signal` that lacks a `to` field
falls through every recognized handler and is broadcast unchanged to every
room member except the sender (over a healthy transport). -/
theorem C10_blind_relay (env : Env) (room : Room) (ws : Ws) (msg : J)
    (hO : ∀ w, env.isOpen w = true) (hNF : noFail env)
    (hTy : tyIs msg "signal" = true) (hTo : msg.hasKey "to" = false) :
    runMsg env room ws msg =
      some ⟨room, (room.clients.filter (fun p => p.1 != ws)).map (fun p => (p.1, msg)), []⟩ := by
  have hObj := isObj_of_tyIs hTy
  have h1 := tyIs_ne hTy (show "signal" ≠ "iam_host" from by decide)
  have h2 := tyIs_ne hTy (show "signal" ≠ "host_mute_all" from by decide)
  have h3 := tyIs_ne hTy (show "signal" ≠ "host_kick" from by decide)
  have h4 := tyIs_ne hTy (show "signal" ≠ "transfer_host" from by decide)
  have h5 := tyIs_ne hTy (show "signal" ≠ "introduce_pair" from by decide)
  have h6 := tyIs_ne hTy (show "signal" ≠ "chat" from by decide)
  simp only [runMsg, hObj, h1, h2, h3, h4, h5, h6, hTy, hTo, Bool.not_true, Bool.and_false,
    Bool.false_eq_true, if_false, Option.some.injEq]
  unfold fallbackStep
  rw [broadcast_healthy_some hO hNF]

/-- C10 witness: a `signal` without `to` from amy reaches every other member
(here bob) unchanged, forged `from` and all. -/
theorem C10_witness :
    runMsg envHealthy roomAB 1 (.obj [("type", .str "signal"), ("data", .num 3)]) =
      some ⟨roomAB, [(2, .obj [("type", .str "signal"), ("data", .num 3)])], []⟩ := by
  have h := C10_blind_relay envHealthy roomAB 1 (.obj [("type", .str "signal"), ("data", .num 3)])
    (fun _ => rfl) (fun _ => rfl) rfl rfl
  rw [h]
  rfl

/-- C7: `host_mute_all` from a sender whose display name differs from the
host produces no outgoing message, no close, and no state change; from the
host (over a healthy transport) `host_mute` goes exactly once to each member
whose display name differs from the host's, and never to the host. -/
theorem C7_mute_routing (env : Env) (room : Room) (ws : Ws) (msg : J)
    (hTy : tyIs msg "host_mute_all" = true) :
    (room.host ≠ some (senderName room ws) →
      runMsg env room ws msg = some ⟨room, [], []⟩) ∧
    (room.host = some (senderName room ws) →
      (∀ w, env.isOpen w = true) → noFail env →
      runMsg env room ws msg =
        some ⟨room,
          (room.clients.filter (fun p => p.2 != senderName room ws)).map
            (fun p => (p.1, hostMuteMsg)), []⟩) := by
  have hObj := isObj_of_tyIs hTy
  have h1 := tyIs_ne hTy (show "host_mute_all" ≠ "iam_host" from by decide)
  constructor
  · intro hne
    simp only [runMsg, hObj, h1, hTy, Bool.not_true, Bool.false_eq_true, if_false, if_true]
    unfold muteStep
    rw [if_neg hne]
  · intro heq hO hNF
    simp only [runMsg, hObj, h1, hTy, Bool.not_true, Bool.false_eq_true, if_false, if_true]
    unfold muteStep
    rw [if_pos heq]
    have hsends : room.clients.filterMap (fun p =>
        if env.isOpen p.1 && p.2 != senderName room ws && !env.fails p.1
        then some (p.1, hostMuteMsg) else none) =
        (room.clients.filter (fun p => p.2 != senderName room ws)).map
          (fun p => (p.1, hostMuteMsg)) := by
      rw [← filterMap_if (fun p => p.2 != senderName room ws)
        (fun p => (p.1, hostMuteMsg)) room.clients]
      congr 1
      funext p
      simp [hO p.1, hNF p.1]
    rw [hsends]

/-- C7 witness: a non-host `host_mute_all` is silently dropped, applied at a
concrete two-member room. -/
theorem C7_witness :
    runMsg envHealthy roomAB 2 (.obj [("type", .str "host_mute_all")]) =
      some ⟨roomAB, [], []⟩ := by
  have h := (C7_mute_routing envHealthy roomAB 2
    (.obj [("type", .str "host_mute_all")]) rfl).1 (by decide)
  exact h

/-- C8: `host_kick` from a non-host is a no-op (no message, no close, no
state change); so is an absent/falsy or unknown target from the host. From
the host with a target resolving to an open, non-raising member socket, that
socket receives `host_kick{to: target}` and is closed. -/
theorem C8_kick_routing (env : Env) (room : Room) (ws : Ws) (msg : J)
    (hTy : tyIs msg "host_kick" = true) :
    (room.host ≠ some (senderName room ws) →
      runMsg env room ws msg = some ⟨room, [], []⟩) ∧
    (room.host = some (senderName room ws) →
      (((msg.get "target").getD .null).truthy = false →
        runMsg env room ws msg = some ⟨room, [], []⟩) ∧
      (ws_for_username room ((msg.get "target").getD .null) = none →
        runMsg env room ws msg = some ⟨room, [], []⟩) ∧
      (∀ w, ws_for_username room ((msg.get "target").getD .null) = some w →
        ((msg.get "target").getD .null).truthy = true →
        env.isOpen w = true → env.fails w = false →
        runMsg env room ws msg =
          some ⟨room, [(w, hostKickToMsg ((msg.get "target").getD .null))], [w]⟩)) := by
  have hObj := isObj_of_tyIs hTy
  have h1 := tyIs_ne hTy (show "host_kick" ≠ "iam_host" from by decide)
  have h2 := tyIs_ne hTy (show "host_kick" ≠ "host_mute_all" from by decide)
  have hred : runMsg env room ws msg = some (kickStep env room (senderName room ws) msg) := by
    simp only [runMsg, hObj, h1, h2, hTy, Bool.not_true, Bool.false_eq_true, if_false, if_true]
  constructor
  · intro hne
    rw [hred]
    unfold kickStep
    rw [if_neg hne]
  · intro heq
    refine ⟨?_, ?_, ?_⟩
    · intro hfalsy
      rw [hred]
      unfold kickStep
      rw [if_pos heq, if_pos hfalsy]
    · intro hnone
      rw [hred]
      unfold kickStep
      rw [if_pos heq]
      by_cases hfalsy : ((msg.get "target").getD .null).truthy = false
      · rw [if_pos hfalsy]
      · rw [if_neg hfalsy, hnone]
    · intro w hw htruthy ho hf
      rw [hred]
      unfold kickStep
      rw [if_pos heq, if_neg (by simp [htruthy]), hw]
      simp [ho, hf]

/-- C8 witness: the host kicks bob; bob's socket receives the warning and is
closed, the room state untouched. -/
theorem C8_witness :
    runMsg envHealthy roomAB 1 (.obj [("type", .str "host_kick"), ("target", .str "bob")]) =
      some ⟨roomAB, [(2, hostKickToMsg (.str "bob"))], [2]⟩ := by
  have h := ((C8_kick_routing envHealthy roomAB 1
    (.obj [("type", .str "host_kick"), ("target", .str "bob")]) rfl).2 rfl).2.2
    2 rfl rfl rfl rfl
  exact h

/-- A chat message whose `to` field is present and not `*` but falsy. -/
def chatFalsyMsg : J :=
  .obj [("type", .str "chat"), ("text", .str "hi"), ("to", .str "")]

/-- C6 counterexample: the claim as stated is false. The router tests Python
truthiness of `to` (`if target and target != "*"`), not presence: a chat
whose `to` is present and differs from `*` but is falsy (here the empty
string) is broadcast room-wide to every member including the sender as the
plain non-`private` payload, instead of the claimed two private deliveries. -/
theorem C6_counterexample :
    chatFalsyMsg.hasKey "to" = true ∧
    strEqJ "*" ((chatFalsyMsg.get "to").getD .null) = false ∧
    runMsg envHealthy roomAB 1 chatFalsyMsg =
      some ⟨roomAB, [(1, chatBaseMsg "amy" "hi"), (2, chatBaseMsg "amy" "hi")], []⟩ ∧
    (chatBaseMsg "amy" "hi").hasKey "private" = false :=
  ⟨rfl, rfl, rfl, rfl⟩

/-- C6 (amended): a `chat` whose text strips to empty sends nothing; with
non-empty stripped text and a `to` that is present, truthy, and not the
wildcard `*`, resolving to a healthy socket (the sender's name also resolving
to a healthy socket), exactly two deliveries occur — the `private` payload to
the target, then the `private` echo carrying `to` back to the connection
resolved for the sender's name; with `to` absent, falsy, or `*` (healthy
transport), exactly one room-wide broadcast reaches every member including
the sender. -/
theorem C6_chat_routing (env : Env) (room : Room) (ws : Ws) (msg : J) (t : String)
    (hTy : tyIs msg "chat" = true) (hText : chatText msg = some t) :
    (pyStrip t = "" → runMsg env room ws msg = some ⟨room, [], []⟩) ∧
    (pyStrip t ≠ "" →
      ∀ tv, msg.get "to" = some tv → tv.truthy = true → strEqJ "*" tv = false →
      ∀ wt wsnd, ws_for_username room tv = some wt →
        env.isOpen wt = true → env.fails wt = false →
        ws_for_username room (.str (senderName room ws)) = some wsnd →
        env.isOpen wsnd = true → env.fails wsnd = false →
        runMsg env room ws msg =
          some ⟨room,
            [(wt, chatPrivMsg (senderName room ws) (pyStrip t)),
             (wsnd, chatEchoMsg (senderName room ws) (pyStrip t) tv)], []⟩) ∧
    (pyStrip t ≠ "" →
      (∀ tv, msg.get "to" = some tv → tv.truthy = false ∨ strEqJ "*" tv = true) →
      (∀ w, env.isOpen w = true) → noFail env →
      runMsg env room ws msg =
        some ⟨room,
          room.clients.map (fun p => (p.1, chatBaseMsg (senderName room ws) (pyStrip t))),
          []⟩) := by
  have hObj := isObj_of_tyIs hTy
  have h1 := tyIs_ne hTy (show "chat" ≠ "iam_host" from by decide)
  have h2 := tyIs_ne hTy (show "chat" ≠ "host_mute_all" from by decide)
  have h3 := tyIs_ne hTy (show "chat" ≠ "host_kick" from by decide)
  have h4 := tyIs_ne hTy (show "chat" ≠ "transfer_host" from by decide)
  have h5 := tyIs_ne hTy (show "chat" ≠ "introduce_pair" from by decide)
  have h6 := tyIs_ne hTy (show "chat" ≠ "signal" from by decide)
  have hred : runMsg env room ws msg = chatStep env room (senderName room ws) msg := by
    simp only [runMsg, hObj, h1, h2, h3, h4, h5, h6, hTy, Bool.not_true, Bool.false_and,
      Bool.false_eq_true, if_false, if_true]
  refine ⟨?_, ?_, ?_⟩
  · intro h0
    rw [hred]
    unfold chatStep
    rw [hText]
    simp only [if_pos h0]
  · intro ht tv hto htv hstar wt wsnd hwt howt hfwt hwsnd hownd hfnd
    rw [hred]
    unfold chatStep
    rw [hText]
    simp only [if_neg ht, hto]
    rw [if_pos (by simp [htv, hstar])]
    unfold send_to_user
    rw [hwt, hwsnd]
    simp [howt, hfwt, hownd, hfnd]
  · intro ht htv hO hNF
    rw [hred]
    unfold chatStep
    rw [hText]
    simp only [if_neg ht]
    have hsplit : msg.get "to" = none ∨
        ∃ tv, msg.get "to" = some tv ∧ (tv.truthy = false ∨ strEqJ "*" tv = true) := by
      cases hto : msg.get "to" with
      | none => exact Or.inl rfl
      | some tv => exact Or.inr ⟨tv, rfl, htv tv hto⟩
    rcases hsplit with hto | ⟨tv, hto, hcond⟩
    · simp only [hto]
      rw [broadcast_healthy_none hO hNF]
    · simp only [hto]
      rw [if_neg (by rcases hcond with hcond | hcond <;> simp [hcond])]
      rw [broadcast_healthy_none hO hNF]

/-- C6 witness: a private chat from amy to bob yields exactly the two
`private` deliveries, target first, echo second. -/
theorem C6_witness :
    runMsg envHealthy roomAB 1
      (.obj [("type", .str "chat"), ("text", .str "hi"), ("to", .str "bob")]) =
      some ⟨roomAB,
            [(2, chatPrivMsg "amy" "hi"), (1, chatEchoMsg "amy" "hi" (.str "bob"))], []⟩ := by
  have h := (C6_chat_routing envHealthy roomAB 1
      (.obj [("type", .str "chat"), ("text", .str "hi"), ("to", .str "bob")]) "hi"
      rfl rfl).2.1 (by decide) (.str "bob") rfl rfl rfl 2 1 rfl rfl rfl rfl rfl rfl
  rw [h]
  rfl

/-- C9: `send_to_user` resolves the first connection currently mapped to the
given name (the head of the member list filtered by name equality), attempts
one send and reports success exactly when the target exists, is open, and
does not raise; in every case — success, closed socket, raising socket, or
unknown name — it returns the room unchanged, never pruning membership. -/
theorem C9_send_to_user (env : Env) (room : Room) (username payload : J) :
    (send_to_user env room username payload).1 = room ∧
    ws_for_username room username =
      (room.clients.find? (fun p => strEqJ p.2 username)).map (fun p => p.1) ∧
    (∀ w, ws_for_username room username = some w →
      (env.isOpen w = true → env.fails w = false →
        send_to_user env room username payload = (room, true, [(w, payload)])) ∧
      ((env.isOpen w = false ∨ env.fails w = true) →
        (send_to_user env room username payload).2.1 = false ∧
        (send_to_user env room username payload).2.2 = [])) ∧
    (ws_for_username room username = none →
      send_to_user env room username payload = (room, false, [])) := by
  refine ⟨send_to_user_fst env room username payload, ?_, ?_, ?_⟩
  · exact findSome?_guard (fun p => strEqJ p.2 username) (fun p => p.1) room.clients
  · intro w hw
    constructor
    · intro ho hf
      unfold send_to_user
      rw [hw]
      simp [ho, hf]
    · intro hbad
      unfold send_to_user
      rw [hw]
      rcases hbad with hbad | hbad
      · simp [hbad]
      · simp [hbad]
  · intro hnone
    unfold send_to_user
    rw [hnone]

/-- C9 witness: sending to "bob" in a healthy room resolves socket 2, succeeds,
and delivers exactly one payload with the room unchanged. -/
theorem C9_witness :
    send_to_user envHealthy roomAB (.str "bob") hostMuteMsg =
      (roomAB, true, [(2, hostMuteMsg)]) :=
  ((C9_send_to_user envHealthy roomAB (.str "bob") hostMuteMsg).2.2.1 2 rfl).1 rfl rfl

end Signaling
